import Mathlib

/-!
Shallow embedding of src/export_resume.py.

The script is a linear flow: check that resume.pdf exists, load a .env
configuration file (KEY=value lines), check that the configured base
directory exists, prompt the user for a subdirectory name (defaulting to
"<git branch> <mm-dd-yy>"), create the directory with mkdir(parents=True,
exist_ok=True) and copy resume.pdf into it as
"<first>_<last>_resume.pdf" with shutil.copy2.

Strings are modelled as List Char.  The filesystem is modelled as a set of
directory paths plus an association list from file paths to byte contents;
a path is a list of name components, and Python Path construction /
joining splits its string argument on the slash character.  External
effects are inputs: the .env file is an optional list of lines, the git
subprocess result is an optional stdout string (none when the command
fails or git is absent), the current date string and the line typed by
the user are plain strings.  sys.exit(1) paths return exit code 1 with
the filesystem unchanged up to that point; falling off the end of main
returns exit code 0.
-/

namespace ExportResume

/-- Python strings are modelled as lists of characters. -/
abbrev Str := List Char

/-- The whitespace characters stripped by Python str.strip() on ASCII
input: space, tab, newline, carriage return, vertical tab, form feed. -/
def spaceChars : Str :=
  [Char.ofNat 32, Char.ofNat 9, Char.ofNat 10, Char.ofNat 13, Char.ofNat 11, Char.ofNat 12]

/-- Whether a character counts as whitespace for str.strip(). -/
def isPySpace (c : Char) : Bool :=
  spaceChars.any (fun d => decide (c = d))

/-- Whether a character is a single or double quote, the characters
stripped from configuration values by strip applied to the two quote
characters in load_environment. -/
def isQuote (c : Char) : Bool :=
  decide (c = Char.ofNat 34) || decide (c = Char.ofNat 39)

/-- Python str.strip with a character predicate: drop the longest runs of
matching characters from both ends. -/
def pyStrip (p : Char → Bool) (s : Str) : Str :=
  (((s.dropWhile p).reverse).dropWhile p).reverse

/-- Python str.strip() with no argument: strip whitespace. -/
def stripWs (s : Str) : Str := pyStrip isPySpace s

/-- Python line.split(the equality sign, 1): split at the first equality
sign, or none when the line contains none (the script then skips the
line). -/
def splitAtFirstEq : Str → Option (Str × Str)
  | [] => none
  | c :: rest =>
    if c = '=' then some ([], rest)
    else
      match splitAtFirstEq rest with
      | some p => some (c :: p.1, p.2)
      | none => none

/-- One iteration of the .env reading loop in load_environment: strip the
line; skip it when it is empty, starts with a hash, or has no equality
sign; otherwise split at the first equality sign, strip the key, and
strip whitespace then surrounding quotes from the value. -/
def parseEnvLine (line : Str) : Option (Str × Str) :=
  let l := stripWs line
  if l = [] then none
  else if l.head? = some '#' then none
  else
    match splitAtFirstEq l with
    | none => none
    | some p => some (stripWs p.1, pyStrip isQuote (stripWs p.2))

/-- Association list lookup with decidable equality, modelling Python
dict lookup. -/
def lookupA {α β : Type} [DecidableEq α] : List (α × β) → α → Option β
  | [], _ => none
  | e :: rest, a => if e.1 = a then some e.2 else lookupA rest a

/-- Association list update, modelling Python dict assignment: replace
the binding of the key when present, append it otherwise. -/
def setAssoc {α β : Type} [DecidableEq α] : List (α × β) → α → β → List (α × β)
  | [], a, b => [(a, b)]
  | e :: rest, a, b => if e.1 = a then (a, b) :: rest else e :: setAssoc rest a b

/-- The config dictionary built by load_environment from the lines of the
.env file. -/
def loadConfig (lines : List Str) : List (Str × Str) :=
  lines.foldl
    (fun cfg line =>
      match parseEnvLine line with
      | none => cfg
      | some kv => setAssoc cfg kv.1 kv.2)
    []

/-- The required-variable check in load_environment: the key must be
present with a non-empty value. -/
def requireKey (cfg : List (Str × Str)) (k : Str) : Option Str :=
  match lookupA cfg k with
  | none => none
  | some v => if v = [] then none else some v

/-- The triple returned by load_environment on success. -/
structure EnvConfig where
  base_dir : Str
  first_name : Str
  last_name : Str
deriving DecidableEq, Repr

/-- load_environment: none models every sys.exit(1) path (.env missing,
or a required key absent or empty); some models the successful return of
(Path(BASE_DIR), FIRST_NAME, LAST_NAME). -/
def load_environment (envFile : Option (List Str)) : Option EnvConfig :=
  match envFile with
  | none => none
  | some lines =>
    let cfg := loadConfig lines
    match requireKey cfg ("BASE_DIR".toList) with
    | none => none
    | some bd =>
      match requireKey cfg ("FIRST_NAME".toList) with
      | none => none
      | some fn =>
        match requireKey cfg ("LAST_NAME".toList) with
        | none => none
        | some ln => some ⟨bd, fn, ln⟩

/-- A filesystem path as a list of name components, the parts of a
Python Path. -/
abbrev FsPath := List Str

/-- Helper for splitPath: accumulate the current component in reverse. -/
def splitPathAux : Str → Str → List Str
  | [], acc => if acc = [] then [] else [acc.reverse]
  | c :: rest, acc =>
    if c = Char.ofNat 47 then
      if acc = [] then splitPathAux rest []
      else acc.reverse :: splitPathAux rest []
    else splitPathAux rest (c :: acc)

/-- Python Path construction and joining: split a string on slashes into
its non-empty name components. -/
def splitPath (s : Str) : FsPath := splitPathAux s []

/-- The modelled filesystem: the set of existing directories and an
association list from file paths to byte contents. -/
structure FS where
  dirs : List FsPath
  files : List (FsPath × List Nat)
deriving DecidableEq, Repr

/-- Membership of a path in a list of paths, as a boolean. -/
def containsP (l : List FsPath) (q : FsPath) : Bool :=
  l.any (fun r => decide (r = q))

/-- Whether a path is an existing file. -/
def FS.isFile (fs : FS) (p : FsPath) : Bool :=
  (lookupA fs.files p).isSome

/-- Whether a path is an existing directory. -/
def FS.isDir (fs : FS) (p : FsPath) : Bool :=
  containsP fs.dirs p

/-- Python Path.exists(): the path is a file or a directory. -/
def FS.pathExists (fs : FS) (p : FsPath) : Bool :=
  fs.isDir p || fs.isFile p

/-- Whether a path is the root (always a directory) or an existing
directory. -/
def FS.isDirOrRoot (fs : FS) (p : FsPath) : Bool :=
  decide (p = []) || fs.isDir p

/-- The non-empty prefixes of a path, shortest first: the directories
that mkdir(parents=True) guarantees to exist. -/
def ancestors (p : FsPath) : List FsPath :=
  (List.range p.length).map (fun i => p.take (i + 1))

/-- Add each of the given paths to the directory set unless already
present. -/
def insertDirs (ds : List FsPath) : List FsPath → List FsPath
  | [] => ds
  | q :: ps => insertDirs (if containsP ds q then ds else ds ++ [q]) ps

/-- Python target_path.mkdir(parents=True, exist_ok=True): fails when an
existing file blocks the path or one of its ancestors, otherwise makes
every prefix of the path a directory (directories that already exist are
tolerated). -/
def FS.mkdirParents (fs : FS) (p : FsPath) : Option FS :=
  if (ancestors p).any (fun q => fs.isFile q) then none
  else some { fs with dirs := insertDirs fs.dirs (ancestors p) }

/-- Writing the copied bytes at an effective destination path: fails when
that path is an existing directory or its parent directory does not
exist; an existing destination file is overwritten. -/
def FS.copyTo (fs : FS) (d : FsPath) (content : List Nat) : Option FS :=
  if fs.isDir d then none
  else if fs.isDirOrRoot d.dropLast then
    some { fs with files := setAssoc fs.files d content }
  else none

/-- shutil.copy2 src dst: fails when the source file is missing; when the
destination is an existing directory the copy lands inside it under the
source base name. -/
def FS.copy2 (fs : FS) (src dst : FsPath) : Option FS :=
  match lookupA fs.files src with
  | none => none
  | some content =>
    fs.copyTo (if fs.isDir dst then dst ++ [src.getLastD []] else dst) content

/-- Path("resume.pdf"), the source artifact in the working directory. -/
def resumePath : FsPath := ["resume.pdf".toList]

/-- check_resume_exists: Path("resume.pdf").exists(). -/
def check_resume_exists (fs : FS) : Bool :=
  fs.pathExists resumePath

/-- get_git_branch: the stripped stdout of git rev-parse when the
subprocess succeeds, the literal "unknown" when it exits non-zero or git
is not found. -/
def get_git_branch (gitOut : Option Str) : Str :=
  match gitOut with
  | some out => stripWs out
  | none => "unknown".toList

/-- get_default_directory_name: "<branch> <mm-dd-yy>" with a single space
between the branch and the date string. -/
def get_default_directory_name (gitOut : Option Str) (dateStr : Str) : Str :=
  get_git_branch gitOut ++ Char.ofNat 32 :: dateStr

/-- create_directory: join the base path with the directory name, attempt
mkdir(parents=True, exist_ok=True), and return the target path on
success; None (here none) when the mkdir raises. -/
def create_directory (fs : FS) (basePath : FsPath) (dirName : Str) : Option (FsPath × FS) :=
  match fs.mkdirParents (basePath ++ splitPath dirName) with
  | none => none
  | some fs2 => some (basePath ++ splitPath dirName, fs2)

/-- The output file name f-string {first_name}_{last_name}_resume.pdf. -/
def resumeFileName (first last : Str) : Str :=
  first ++ '_' :: (last ++ "_resume.pdf".toList)

/-- copy_resume: copy resume.pdf to target_dir joined with the renamed
file; none models the exception path that makes the function return
False. -/
def copy_resume (fs : FS) (targetDir : FsPath) (first last : Str) : Option FS :=
  fs.copy2 resumePath (targetDir ++ splitPath (resumeFileName first last))

/-- The directory name chosen in main: the stripped user input, or the
default name when the stripped input is empty. -/
def chosenDirName (gitOut : Option Str) (dateStr userInput : Str) : Str :=
  if stripWs userInput = [] then get_default_directory_name gitOut dateStr
  else stripWs userInput

/-- The observable outcome of a run: the process exit code and the final
filesystem. -/
structure RunResult where
  exitCode : Nat
  fs : FS
deriving DecidableEq, Repr

/-- main: the linear flow of the script.  Every sys.exit(1) yields exit
code 1 with the filesystem as modified so far; reaching the end of main
yields exit code 0. -/
def main (fs : FS) (envFile : Option (List Str)) (gitOut : Option Str)
    (dateStr userInput : Str) : RunResult :=
  if ¬ check_resume_exists fs then ⟨1, fs⟩
  else
    match load_environment envFile with
    | none => ⟨1, fs⟩
    | some env =>
      if ¬ fs.pathExists (splitPath env.base_dir) then ⟨1, fs⟩
      else
        match create_directory fs (splitPath env.base_dir)
            (chosenDirName gitOut dateStr userInput) with
        | none => ⟨1, fs⟩
        | some tfs =>
          match copy_resume tfs.2 tfs.1 env.first_name env.last_name with
          | none => ⟨1, tfs.2⟩
          | some fs3 => ⟨0, fs3⟩

/-- Whether every step of a run succeeds: the source artifact exists, the
configuration loads, the base directory exists, the directory is created
and the copy succeeds. -/
def runSucceeds (fs : FS) (envFile : Option (List Str)) (gitOut : Option Str)
    (dateStr userInput : Str) : Bool :=
  check_resume_exists fs &&
    match load_environment envFile with
    | none => false
    | some env =>
      fs.pathExists (splitPath env.base_dir) &&
        match create_directory fs (splitPath env.base_dir)
            (chosenDirName gitOut dateStr userInput) with
        | none => false
        | some tfs =>
          (copy_resume tfs.2 tfs.1 env.first_name env.last_name).isSome

/-! ### Basic lemmas about the helper structures -/

theorem containsP_iff {l : List FsPath} {q : FsPath} : containsP l q = true ↔ q ∈ l := by
  simp [containsP, List.any_eq_true]

theorem lookupA_setAssoc {α β : Type} [DecidableEq α] (l : List (α × β)) (k : α) (v : β)
    (a : α) : lookupA (setAssoc l k v) a = if a = k then some v else lookupA l a := by
  induction l with
  | nil =>
    by_cases h : a = k
    · subst h; simp [setAssoc, lookupA]
    · have h2 : ¬ k = a := fun hh => h hh.symm
      simp [setAssoc, lookupA, h, h2]
  | cons e rest ih =>
    by_cases he : e.1 = k
    · by_cases ha : a = k
      · subst ha; simp [setAssoc, lookupA, he]
      · have hka : ¬ k = a := fun hh => ha hh.symm
        have hea : ¬ e.1 = a := by rw [he]; exact hka
        simp [setAssoc, lookupA, he, ha, hka, hea]
    · by_cases ha : e.1 = a
      · have hak : ¬ a = k := by rw [← ha]; exact fun hh => he hh
        simp [setAssoc, lookupA, he, ha, hak]
      · simp [setAssoc, lookupA, he, ha, ih]

theorem setAssoc_idem {α β : Type} [DecidableEq α] (l : List (α × β)) (k : α) (v : β) :
    setAssoc (setAssoc l k v) k v = setAssoc l k v := by
  induction l with
  | nil => simp [setAssoc]
  | cons e rest ih =>
    by_cases he : e.1 = k
    · simp [setAssoc, he]
    · simp [setAssoc, he, ih]

theorem mem_insertDirs (ps : List FsPath) (ds : List FsPath) (q : FsPath) :
    q ∈ insertDirs ds ps ↔ q ∈ ds ∨ q ∈ ps := by
  induction ps generalizing ds with
  | nil => simp [insertDirs]
  | cons a ps ih =>
    rw [insertDirs, ih]
    by_cases hc : containsP ds a = true
    · have ha : a ∈ ds := containsP_iff.mp hc
      rw [if_pos hc]
      simp only [List.mem_cons]
      constructor
      · rintro (hq | hq)
        · exact Or.inl hq
        · exact Or.inr (Or.inr hq)
      · rintro (hq | hq | hq)
        · exact Or.inl hq
        · subst hq; exact Or.inl ha
        · exact Or.inr hq
    · rw [if_neg hc]
      simp only [List.mem_append, List.mem_singleton, List.mem_cons]
      tauto

theorem insertDirs_noop (ps : List FsPath) (ds : List FsPath)
    (h : ∀ q ∈ ps, q ∈ ds) : insertDirs ds ps = ds := by
  induction ps with
  | nil => rfl
  | cons a ps ih =>
    have ha : containsP ds a = true := containsP_iff.mpr (h a (List.mem_cons_self a ps))
    simp only [insertDirs, ha, if_pos]
    exact ih (fun q hq => h q (List.mem_cons_of_mem a hq))

theorem mem_ancestors {p q : FsPath} :
    q ∈ ancestors p ↔ ∃ i, i < p.length ∧ q = p.take (i + 1) := by
  simp [ancestors, List.mem_map, List.mem_range, eq_comm]

theorem length_le_of_mem_ancestors {p q : FsPath} (h : q ∈ ancestors p) :
    q.length ≤ p.length := by
  rcases mem_ancestors.mp h with ⟨i, _, rfl⟩
  simp [List.length_take]

theorem self_mem_ancestors {p : FsPath} (h : p ≠ []) : p ∈ ancestors p := by
  apply mem_ancestors.mpr
  refine ⟨p.length - 1, ?_, ?_⟩
  · have : 0 < p.length := List.length_pos.mpr h
    omega
  · have hl : 0 < p.length := List.length_pos.mpr h
    have : p.length - 1 + 1 = p.length := by omega
    rw [this, List.take_length]

theorem mkdirParents_eq_some {fs fs2 : FS} {p : FsPath}
    (h : fs.mkdirParents p = some fs2) :
    (∀ q ∈ ancestors p, fs.isFile q = false) ∧
      fs2 = ⟨insertDirs fs.dirs (ancestors p), fs.files⟩ := by
  unfold FS.mkdirParents at h
  split at h
  · exact absurd h (by simp)
  · rename_i hany
    refine ⟨?_, ?_⟩
    · intro q hq
      by_contra hq2
      exact hany (List.any_eq_true.mpr ⟨q, hq, by
        cases hf : fs.isFile q
        · exact absurd hf hq2
        · simp⟩)
    · cases fs2
      injection h with h2
      rw [← h2]

theorem mkdirParents_some_of {fs : FS} {p : FsPath}
    (h : ∀ q ∈ ancestors p, fs.isFile q = false) :
    fs.mkdirParents p = some ⟨insertDirs fs.dirs (ancestors p), fs.files⟩ := by
  unfold FS.mkdirParents
  have hany : (ancestors p).any (fun q => fs.isFile q) = false := by
    rw [List.any_eq_false]
    intro q hq
    simp [h q hq]
  rw [hany]
  rfl

theorem copyTo_eq_some {fs fs3 : FS} {d : FsPath} {content : List Nat}
    (h : fs.copyTo d content = some fs3) :
    fs.isDir d = false ∧ fs.isDirOrRoot d.dropLast = true ∧
      fs3 = ⟨fs.dirs, setAssoc fs.files d content⟩ := by
  unfold FS.copyTo at h
  split at h
  · exact absurd h (by simp)
  · rename_i hdir
    split at h
    · rename_i hroot
      refine ⟨by simpa using hdir, hroot, ?_⟩
      cases fs3
      injection h with h2
      rw [← h2]
    · exact absurd h (by simp)

theorem copyTo_some_of {fs : FS} {d : FsPath} {content : List Nat}
    (hdir : fs.isDir d = false) (hroot : fs.isDirOrRoot d.dropLast = true) :
    fs.copyTo d content = some ⟨fs.dirs, setAssoc fs.files d content⟩ := by
  unfold FS.copyTo
  simp [hdir, hroot]

theorem copy2_eq_some {fs fs3 : FS} {src dst : FsPath}
    (h : fs.copy2 src dst = some fs3) :
    ∃ content d, lookupA fs.files src = some content ∧
      d = (if fs.isDir dst then dst ++ [src.getLastD []] else dst) ∧
      fs.copyTo d content = some fs3 := by
  unfold FS.copy2 at h
  split at h
  · exact absurd h (by simp)
  · rename_i content hsrc
    exact ⟨content, _, hsrc, rfl, h⟩

theorem copy2_some_of {fs fs3 : FS} {src dst : FsPath} {content : List Nat}
    (hsrc : lookupA fs.files src = some content)
    (hcopy : fs.copyTo (if fs.isDir dst then dst ++ [src.getLastD []] else dst) content
      = some fs3) :
    fs.copy2 src dst = some fs3 := by
  unfold FS.copy2
  rw [hsrc]
  exact hcopy

theorem containsP_eq_false {l : List FsPath} {q : FsPath} :
    containsP l q = false ↔ ¬ q ∈ l := by
  rw [← containsP_iff]
  cases containsP l q <;> simp

/-! ### The success path of a run -/

theorem create_directory_success {fs : FS} {basePath : FsPath} {dirName : Str}
    (hanc : ∀ q ∈ ancestors (basePath ++ splitPath dirName), fs.isFile q = false) :
    create_directory fs basePath dirName
      = some (basePath ++ splitPath dirName,
          ⟨insertDirs fs.dirs (ancestors (basePath ++ splitPath dirName)), fs.files⟩) := by
  unfold create_directory
  rw [mkdirParents_some_of hanc]

theorem copy_resume_success {fs : FS} {target : FsPath} {first last : Str}
    {content : List Nat}
    (hres : lookupA fs.files resumePath = some content)
    (hfp : splitPath (resumeFileName first last) = [resumeFileName first last])
    (htfdir : containsP fs.dirs (target ++ [resumeFileName first last]) = false)
    (hne : target ≠ []) :
    copy_resume ⟨insertDirs fs.dirs (ancestors target), fs.files⟩ target first last
      = some ⟨insertDirs fs.dirs (ancestors target),
          setAssoc fs.files (target ++ [resumeFileName first last]) content⟩ := by
  unfold copy_resume
  rw [hfp]
  have hdst : FS.isDir ⟨insertDirs fs.dirs (ancestors target), fs.files⟩
      (target ++ [resumeFileName first last]) = false := by
    unfold FS.isDir
    rw [containsP_eq_false, mem_insertDirs]
    rintro (hmem | hmem)
    · exact (containsP_eq_false.mp htfdir) hmem
    · have hlen := length_le_of_mem_ancestors hmem
      simp at hlen
  have hroot : FS.isDirOrRoot ⟨insertDirs fs.dirs (ancestors target), fs.files⟩
      (target ++ [resumeFileName first last]).dropLast = true := by
    rw [List.dropLast_concat]
    have hmem : target ∈ insertDirs fs.dirs (ancestors target) :=
      (mem_insertDirs _ _ _).mpr (Or.inr (self_mem_ancestors hne))
    simp [FS.isDirOrRoot, FS.isDir, containsP_iff.mpr hmem]
  have hres2 : lookupA (FS.files ⟨insertDirs fs.dirs (ancestors target), fs.files⟩)
      resumePath = some content := hres
  apply copy2_some_of hres2
  rw [hdst]
  simp only [Bool.false_eq_true, if_false]
  exact copyTo_some_of hdst hroot

theorem main_success {fs : FS} {envFile : Option (List Str)} {gitOut : Option Str}
    {dateStr userInput : Str} {env : EnvConfig} {content : List Nat}
    (hload : load_environment envFile = some env)
    (hres : lookupA fs.files resumePath = some content)
    (hbase : fs.pathExists (splitPath env.base_dir) = true)
    (hfp : splitPath (resumeFileName env.first_name env.last_name)
      = [resumeFileName env.first_name env.last_name])
    (hanc : ∀ q ∈ ancestors (splitPath env.base_dir
      ++ splitPath (chosenDirName gitOut dateStr userInput)), fs.isFile q = false)
    (htfdir : containsP fs.dirs (splitPath env.base_dir
      ++ splitPath (chosenDirName gitOut dateStr userInput)
      ++ [resumeFileName env.first_name env.last_name]) = false)
    (hne : splitPath env.base_dir ++ splitPath (chosenDirName gitOut dateStr userInput)
      ≠ []) :
    main fs envFile gitOut dateStr userInput
      = ⟨0, ⟨insertDirs fs.dirs (ancestors (splitPath env.base_dir
            ++ splitPath (chosenDirName gitOut dateStr userInput))),
          setAssoc fs.files (splitPath env.base_dir
            ++ splitPath (chosenDirName gitOut dateStr userInput)
            ++ [resumeFileName env.first_name env.last_name]) content⟩⟩ := by
  have hcheck : check_resume_exists fs = true := by
    simp [check_resume_exists, FS.pathExists, FS.isFile, hres]
  unfold main
  rw [hload]
  simp only [hcheck, hbase, not_true_eq_false, if_false, Bool.not_true]
  rw [create_directory_success hanc]
  simp only []
  rw [copy_resume_success hres hfp htfdir hne]

/-! ### Inversion of the success path -/

theorem create_directory_eq_some {fs fs2 : FS} {basePath target : FsPath} {dirName : Str}
    (h : create_directory fs basePath dirName = some (target, fs2)) :
    target = basePath ++ splitPath dirName ∧
      (∀ q ∈ ancestors target, fs.isFile q = false) ∧
      fs2 = ⟨insertDirs fs.dirs (ancestors target), fs.files⟩ := by
  unfold create_directory at h
  cases hmk : fs.mkdirParents (basePath ++ splitPath dirName) with
  | none => rw [hmk] at h; exact absurd h (by simp)
  | some fsx =>
    rw [hmk] at h
    injection h with h2
    have ht : target = basePath ++ splitPath dirName :=
      (congrArg Prod.fst h2).symm
    have hf : fs2 = fsx := (congrArg Prod.snd h2).symm
    obtain ⟨hanc, hfs⟩ := mkdirParents_eq_some hmk
    subst ht
    exact ⟨rfl, hanc, by rw [hf, hfs]⟩

theorem main_exit_zero {fs : FS} {envFile : Option (List Str)} {gitOut : Option Str}
    {dateStr userInput : Str}
    (h : (main fs envFile gitOut dateStr userInput).exitCode = 0) :
    ∃ env target fs2 fs3,
      check_resume_exists fs = true ∧
      load_environment envFile = some env ∧
      fs.pathExists (splitPath env.base_dir) = true ∧
      create_directory fs (splitPath env.base_dir)
        (chosenDirName gitOut dateStr userInput) = some (target, fs2) ∧
      copy_resume fs2 target env.first_name env.last_name = some fs3 ∧
      main fs envFile gitOut dateStr userInput = ⟨0, fs3⟩ := by
  unfold main at h ⊢
  split at h
  · exact absurd h (by simp)
  · rename_i hcheck
    have hc : check_resume_exists fs = true := by
      cases hcc : check_resume_exists fs
      · exact absurd (by simp [hcc]) hcheck
      · rfl
    split at h
    · exact absurd h (by simp)
    · rename_i env hload
      split at h
      · exact absurd h (by simp)
      · rename_i hbase
        have hb : fs.pathExists (splitPath env.base_dir) = true := by
          cases hbb : fs.pathExists (splitPath env.base_dir)
          · exact absurd (by simp [hbb]) hbase
          · rfl
        split at h
        · exact absurd h (by simp)
        · rename_i tfs hcreate
          split at h
          · exact absurd h (by simp)
          · rename_i fs3 hcopy
            refine ⟨env, tfs.1, tfs.2, fs3, hc, hload, hb, ?_, hcopy, ?_⟩
            · rw [hcreate]
            · simp [hc, hb]

/-! ### Claim theorems -/

/-- C2: when the source artifact resume.pdf does not exist in the working
directory, the run exits with code 1 and leaves the filesystem unchanged,
so no directory is created. -/
theorem c2_missing_resume (fs : FS) (envFile : Option (List Str)) (gitOut : Option Str)
    (dateStr userInput : Str) (h : fs.pathExists resumePath = false) :
    main fs envFile gitOut dateStr userInput = ⟨1, fs⟩ := by
  unfold main
  simp [check_resume_exists, h]

/-- Witness for C2 at a concrete empty filesystem. -/
theorem c2_missing_resume_witness :
    FS.pathExists ⟨[], []⟩ resumePath = false
    ∧ main ⟨[], []⟩ none none [] [] = ⟨1, ⟨[], []⟩⟩ :=
  ⟨by decide, c2_missing_resume ⟨[], []⟩ none none [] [] (by decide)⟩

/-- C3: when a required key BASE_DIR, FIRST_NAME or LAST_NAME is absent
from the configuration or has an empty value, the run exits with code 1
and makes no filesystem change. -/
theorem c3_missing_key (fs : FS) (lines : List Str) (gitOut : Option Str)
    (dateStr userInput : Str)
    (h : requireKey (loadConfig lines) ("BASE_DIR".toList) = none
      ∨ requireKey (loadConfig lines) ("FIRST_NAME".toList) = none
      ∨ requireKey (loadConfig lines) ("LAST_NAME".toList) = none) :
    main fs (some lines) gitOut dateStr userInput = ⟨1, fs⟩ := by
  have hload : load_environment (some lines) = none := by
    unfold load_environment
    rcases h with h | h | h
    · simp only [h]
    · simp only [h]
      cases requireKey (loadConfig lines) ("BASE_DIR".toList) <;> rfl
    · simp only [h]
      cases requireKey (loadConfig lines) ("BASE_DIR".toList) with
      | none => rfl
      | some bd => cases requireKey (loadConfig lines) ("FIRST_NAME".toList) <;> rfl
  unfold main
  cases hc : check_resume_exists fs <;> simp [hc, hload]

/-- Witness for C3: a configuration without BASE_DIR. -/
theorem c3_missing_key_witness :
    requireKey (loadConfig ["FIRST_NAME=Ada".toList, "LAST_NAME=L".toList])
        ("BASE_DIR".toList) = none
    ∧ main ⟨[], [(resumePath, [1, 2, 3])]⟩
        (some ["FIRST_NAME=Ada".toList, "LAST_NAME=L".toList]) none [] []
      = ⟨1, ⟨[], [(resumePath, [1, 2, 3])]⟩⟩ :=
  ⟨by decide,
    c3_missing_key ⟨[], [(resumePath, [1, 2, 3])]⟩
      ["FIRST_NAME=Ada".toList, "LAST_NAME=L".toList] none [] []
      (Or.inl (by decide))⟩

/-- C4: when the configured base directory path does not exist on the
filesystem, the run exits with code 1 and makes no filesystem change. -/
theorem c4_missing_base_dir (fs : FS) (envFile : Option (List Str)) (gitOut : Option Str)
    (dateStr userInput : Str) (env : EnvConfig)
    (hload : load_environment envFile = some env)
    (hbase : fs.pathExists (splitPath env.base_dir) = false) :
    main fs envFile gitOut dateStr userInput = ⟨1, fs⟩ := by
  unfold main
  cases hc : check_resume_exists fs <;> simp [hc, hload, hbase]

/-- Witness for C4: a valid configuration naming a base directory that is
absent from the filesystem. -/
theorem c4_missing_base_dir_witness :
    load_environment (some ["BASE_DIR=out".toList, "FIRST_NAME=Ada".toList,
        "LAST_NAME=L".toList])
      = some ⟨"out".toList, "Ada".toList, "L".toList⟩
    ∧ FS.pathExists ⟨[], [(resumePath, [1, 2, 3])]⟩
        (splitPath (EnvConfig.base_dir ⟨"out".toList, "Ada".toList, "L".toList⟩)) = false
    ∧ main ⟨[], [(resumePath, [1, 2, 3])]⟩
        (some ["BASE_DIR=out".toList, "FIRST_NAME=Ada".toList, "LAST_NAME=L".toList])
        none [] []
      = ⟨1, ⟨[], [(resumePath, [1, 2, 3])]⟩⟩ :=
  ⟨by decide, by decide,
    c4_missing_base_dir ⟨[], [(resumePath, [1, 2, 3])]⟩
      (some ["BASE_DIR=out".toList, "FIRST_NAME=Ada".toList, "LAST_NAME=L".toList])
      none [] [] ⟨"out".toList, "Ada".toList, "L".toList⟩ (by decide) (by decide)⟩

/-- C1: with a valid configuration, the base directory existing, resume.pdf
existing, blank input at the prompt, and nothing obstructing the target
path, the run exits with code 0, creates the directory named
"<branch> <mm-dd-yy>" under the base directory, and places in it the file
"<first>_<last>_resume.pdf" whose bytes are exactly those of the source
artifact. -/
theorem c1_blank_input_export (fs : FS) (envFile : Option (List Str))
    (gitOut : Option Str) (dateStr : Str) (env : EnvConfig) (content : List Nat)
    (hload : load_environment envFile = some env)
    (hres : lookupA fs.files resumePath = some content)
    (hbase : FS.isDir fs (splitPath env.base_dir) = true)
    (hdn : splitPath (get_default_directory_name gitOut dateStr)
      = [get_default_directory_name gitOut dateStr])
    (hfp : splitPath (resumeFileName env.first_name env.last_name)
      = [resumeFileName env.first_name env.last_name])
    (hanc : ∀ q ∈ ancestors (splitPath env.base_dir
      ++ [get_default_directory_name gitOut dateStr]), fs.isFile q = false)
    (htfdir : containsP fs.dirs (splitPath env.base_dir
      ++ [get_default_directory_name gitOut dateStr,
          resumeFileName env.first_name env.last_name]) = false) :
    (main fs envFile gitOut dateStr []).exitCode = 0
    ∧ FS.isDir (main fs envFile gitOut dateStr []).fs
        (splitPath env.base_dir ++ [get_default_directory_name gitOut dateStr]) = true
    ∧ lookupA (main fs envFile gitOut dateStr []).fs.files
        (splitPath env.base_dir ++ [get_default_directory_name gitOut dateStr,
          resumeFileName env.first_name env.last_name])
      = some content := by
  have hchosen : chosenDirName gitOut dateStr [] = get_default_directory_name gitOut dateStr :=
    rfl
  have he : splitPath (chosenDirName gitOut dateStr [])
      = [get_default_directory_name gitOut dateStr] := by
    rw [hchosen, hdn]
  have hbase2 : fs.pathExists (splitPath env.base_dir) = true := by
    simp [FS.pathExists, hbase]
  have hpair : splitPath env.base_dir ++ [get_default_directory_name gitOut dateStr]
        ++ [resumeFileName env.first_name env.last_name]
      = splitPath env.base_dir ++ [get_default_directory_name gitOut dateStr,
          resumeFileName env.first_name env.last_name] := by
    simp
  have h5 : ∀ q ∈ ancestors (splitPath env.base_dir
      ++ splitPath (chosenDirName gitOut dateStr [])), fs.isFile q = false := by
    rw [he]; exact hanc
  have h6 : containsP fs.dirs (splitPath env.base_dir
      ++ splitPath (chosenDirName gitOut dateStr [])
      ++ [resumeFileName env.first_name env.last_name]) = false := by
    rw [he, hpair]; exact htfdir
  have h7 : splitPath env.base_dir ++ splitPath (chosenDirName gitOut dateStr []) ≠ [] := by
    rw [he]; simp
  have hmain := main_success hload hres hbase2 hfp h5 h6 h7
  rw [hmain]
  refine ⟨rfl, ?_, ?_⟩
  · show FS.isDir ⟨insertDirs fs.dirs (ancestors (splitPath env.base_dir
        ++ splitPath (chosenDirName gitOut dateStr []))), _⟩ _ = true
    unfold FS.isDir
    rw [he]
    apply containsP_iff.mpr
    apply (mem_insertDirs _ _ _).mpr
    exact Or.inr (self_mem_ancestors (by simp))
  · show lookupA (setAssoc fs.files (splitPath env.base_dir
        ++ splitPath (chosenDirName gitOut dateStr [])
        ++ [resumeFileName env.first_name env.last_name]) content) _ = some content
    rw [he, hpair, lookupA_setAssoc, if_pos rfl]

/-- Witness data: a run with base directory "out", names Ada L, branch
"main", date "10-12-25" and resume bytes [1, 2, 3]. -/
def wFS : FS := ⟨[["out".toList]], [(resumePath, [1, 2, 3])]⟩

/-- Witness configuration file lines. -/
def wLines : List Str :=
  ["BASE_DIR=out".toList, "FIRST_NAME=Ada".toList, "LAST_NAME=L".toList]

/-- Witness git stdout. -/
def wGit : Option Str := some ("main".toList)

/-- Witness date string. -/
def wDate : Str := "10-12-25".toList

/-- Witness configuration record. -/
def wEnv : EnvConfig := ⟨"out".toList, "Ada".toList, "L".toList⟩

/-- Witness for C1 at the concrete run. -/
theorem c1_blank_input_export_witness :
    (main wFS (some wLines) wGit wDate []).exitCode = 0
    ∧ FS.isDir (main wFS (some wLines) wGit wDate []).fs
        (splitPath wEnv.base_dir ++ [get_default_directory_name wGit wDate]) = true
    ∧ lookupA (main wFS (some wLines) wGit wDate []).fs.files
        (splitPath wEnv.base_dir ++ [get_default_directory_name wGit wDate,
          resumeFileName wEnv.first_name wEnv.last_name])
      = some [1, 2, 3] :=
  c1_blank_input_export wFS (some wLines) wGit wDate wEnv [1, 2, 3]
    (by decide) (by decide) (by decide) (by decide) (by decide) (by decide) (by decide)

/-- C9: when the user enters "Foo" at the prompt, the chosen directory
name is exactly "Foo": the run exits with code 0 and the destination
directory created under the base directory is base/"Foo", with the
renamed resume inside it; no date or branch is appended. -/
theorem c9_explicit_name (fs : FS) (envFile : Option (List Str))
    (gitOut : Option Str) (dateStr : Str) (env : EnvConfig) (content : List Nat)
    (hload : load_environment envFile = some env)
    (hres : lookupA fs.files resumePath = some content)
    (hbase : FS.isDir fs (splitPath env.base_dir) = true)
    (hfp : splitPath (resumeFileName env.first_name env.last_name)
      = [resumeFileName env.first_name env.last_name])
    (hanc : ∀ q ∈ ancestors (splitPath env.base_dir ++ ["Foo".toList]),
      fs.isFile q = false)
    (htfdir : containsP fs.dirs (splitPath env.base_dir
      ++ ["Foo".toList, resumeFileName env.first_name env.last_name]) = false) :
    chosenDirName gitOut dateStr ("Foo".toList) = "Foo".toList
    ∧ (main fs envFile gitOut dateStr ("Foo".toList)).exitCode = 0
    ∧ FS.isDir (main fs envFile gitOut dateStr ("Foo".toList)).fs
        (splitPath env.base_dir ++ ["Foo".toList]) = true
    ∧ lookupA (main fs envFile gitOut dateStr ("Foo".toList)).fs.files
        (splitPath env.base_dir
          ++ ["Foo".toList, resumeFileName env.first_name env.last_name])
      = some content := by
  have hchosen : chosenDirName gitOut dateStr ("Foo".toList) = "Foo".toList := by
    unfold chosenDirName
    rw [if_neg (by decide)]
    decide
  have he : splitPath (chosenDirName gitOut dateStr ("Foo".toList)) = ["Foo".toList] := by
    rw [hchosen]; decide
  have hbase2 : fs.pathExists (splitPath env.base_dir) = true := by
    simp [FS.pathExists, hbase]
  have hpair : splitPath env.base_dir ++ ["Foo".toList]
        ++ [resumeFileName env.first_name env.last_name]
      = splitPath env.base_dir
        ++ ["Foo".toList, resumeFileName env.first_name env.last_name] := by
    simp
  have h5 : ∀ q ∈ ancestors (splitPath env.base_dir
      ++ splitPath (chosenDirName gitOut dateStr ("Foo".toList))), fs.isFile q = false := by
    rw [he]; exact hanc
  have h6 : containsP fs.dirs (splitPath env.base_dir
      ++ splitPath (chosenDirName gitOut dateStr ("Foo".toList))
      ++ [resumeFileName env.first_name env.last_name]) = false := by
    rw [he, hpair]; exact htfdir
  have h7 : splitPath env.base_dir
      ++ splitPath (chosenDirName gitOut dateStr ("Foo".toList)) ≠ [] := by
    rw [he]; simp
  have hmain := main_success hload hres hbase2 hfp h5 h6 h7
  rw [hmain]
  refine ⟨hchosen, rfl, ?_, ?_⟩
  · show FS.isDir ⟨insertDirs fs.dirs (ancestors (splitPath env.base_dir
        ++ splitPath (chosenDirName gitOut dateStr ("Foo".toList)))), _⟩ _ = true
    unfold FS.isDir
    rw [he]
    apply containsP_iff.mpr
    apply (mem_insertDirs _ _ _).mpr
    exact Or.inr (self_mem_ancestors (by simp))
  · show lookupA (setAssoc fs.files (splitPath env.base_dir
        ++ splitPath (chosenDirName gitOut dateStr ("Foo".toList))
        ++ [resumeFileName env.first_name env.last_name]) content) _ = some content
    rw [he, hpair, lookupA_setAssoc, if_pos rfl]

/-- Witness for C9 at the concrete run. -/
theorem c9_explicit_name_witness :
    chosenDirName wGit wDate ("Foo".toList) = "Foo".toList
    ∧ (main wFS (some wLines) wGit wDate ("Foo".toList)).exitCode = 0
    ∧ FS.isDir (main wFS (some wLines) wGit wDate ("Foo".toList)).fs
        (splitPath wEnv.base_dir ++ ["Foo".toList]) = true
    ∧ lookupA (main wFS (some wLines) wGit wDate ("Foo".toList)).fs.files
        (splitPath wEnv.base_dir
          ++ ["Foo".toList, resumeFileName wEnv.first_name wEnv.last_name])
      = some [1, 2, 3] :=
  c9_explicit_name wFS (some wLines) wGit wDate wEnv [1, 2, 3]
    (by decide) (by decide) (by decide) (by decide) (by decide) (by decide)

/-- C5: a successful run is idempotent.  When a run with given inputs
exits with code 0, running again with the same inputs and directory name
from the resulting filesystem succeeds with the identical result:
directory creation tolerates the now-existing directory, the copy
overwrites the previously copied file with the same bytes, and the final
filesystem state equals the state after the single run. -/
theorem c5_idempotent (fs : FS) (envFile : Option (List Str)) (gitOut : Option Str)
    (dateStr userInput : Str)
    (h : (main fs envFile gitOut dateStr userInput).exitCode = 0) :
    main ((main fs envFile gitOut dateStr userInput).fs) envFile gitOut dateStr userInput
      = main fs envFile gitOut dateStr userInput := by
  obtain ⟨env, target, fs2, fs3, hcheck, hload, hbase, hcreate, hcopy, hmain⟩ :=
    main_exit_zero h
  obtain ⟨ht, hanc, hfs2⟩ := create_directory_eq_some hcreate
  have hcopy2 : fs2.copy2 resumePath
      (target ++ splitPath (resumeFileName env.first_name env.last_name)) = some fs3 := by
    unfold copy_resume at hcopy
    exact hcopy
  obtain ⟨content, d, hsrc, hd, hct⟩ := copy2_eq_some hcopy2
  obtain ⟨hdird, hroot, hfs3⟩ := copyTo_eq_some hct
  have hdirs2 : fs2.dirs = insertDirs fs.dirs (ancestors target) := by rw [hfs2]
  have hfiles2 : fs2.files = fs.files := by rw [hfs2]
  have hdirs3 : fs3.dirs = insertDirs fs.dirs (ancestors target) := by
    rw [hfs3, ← hdirs2]
  have hfiles3 : fs3.files = setAssoc fs.files d content := by
    rw [hfs3, ← hfiles2]
  -- every ancestor of the target differs from the effective destination
  have hqd : ∀ q ∈ ancestors target, q ≠ d := by
    intro q hq hqd2
    have hlq := length_le_of_mem_ancestors hq
    have htne : target ≠ [] := by
      intro h0
      rw [h0] at hq
      simp [ancestors] at hq
    have htm : FS.isDir fs2 target = true := by
      unfold FS.isDir
      rw [hdirs2]
      exact containsP_iff.mpr ((mem_insertDirs _ _ _).mpr (Or.inr (self_mem_ancestors htne)))
    have hql : q.length = d.length := by rw [hqd2]
    by_cases hdst : fs2.isDir
        (target ++ splitPath (resumeFileName env.first_name env.last_name)) = true
    · rw [if_pos hdst] at hd
      rw [hd] at hql
      simp [List.length_append] at hql
      omega
    · rw [if_neg hdst] at hd
      cases hfp0 : splitPath (resumeFileName env.first_name env.last_name) with
      | nil =>
        rw [hfp0, List.append_nil] at hd
        rw [hfp0, List.append_nil] at hdst
        rw [hd] at hdird
        exact absurd htm (by simp [hdird])
      | cons c l =>
        rw [hd, hfp0] at hql
        simp [List.length_append] at hql
        omega
  -- the source file still holds the same bytes after the run
  have hsrc3 : lookupA fs3.files resumePath = some content := by
    rw [hfiles3, lookupA_setAssoc]
    by_cases hrd : resumePath = d
    · rw [if_pos hrd]
    · rw [if_neg hrd]
      rw [← hfiles2]
      exact hsrc
  have hcheck3 : check_resume_exists fs3 = true := by
    simp [check_resume_exists, FS.pathExists, FS.isFile, hsrc3]
  -- the base directory still exists after the run
  have hbase3 : fs3.pathExists (splitPath env.base_dir) = true := by
    unfold FS.pathExists at hbase ⊢
    rcases Bool.or_eq_true_iff.mp hbase with hb | hb
    · apply Bool.or_eq_true_iff.mpr
      left
      unfold FS.isDir at hb ⊢
      rw [hdirs3]
      exact containsP_iff.mpr ((mem_insertDirs _ _ _).mpr (Or.inl (containsP_iff.mp hb)))
    · apply Bool.or_eq_true_iff.mpr
      right
      unfold FS.isFile at hb ⊢
      rw [hfiles3, lookupA_setAssoc]
      by_cases hpd : splitPath env.base_dir = d
      · rw [if_pos hpd]
        rfl
      · rw [if_neg hpd]
        exact hb
  -- directory creation succeeds again and changes nothing
  have hanc3 : ∀ q ∈ ancestors target, fs3.isFile q = false := by
    intro q hq
    unfold FS.isFile
    rw [hfiles3, lookupA_setAssoc, if_neg (hqd q hq)]
    exact hanc q hq
  have hins3 : insertDirs fs3.dirs (ancestors target) = fs3.dirs := by
    apply insertDirs_noop
    intro q hq
    rw [hdirs3]
    exact (mem_insertDirs _ _ _).mpr (Or.inr hq)
  have hcreate3 : create_directory fs3 (splitPath env.base_dir)
      (chosenDirName gitOut dateStr userInput) = some (target, fs3) := by
    unfold create_directory
    rw [← ht, mkdirParents_some_of hanc3, hins3]
  -- the copy succeeds again and overwrites with the same bytes
  have hdeq : ∀ p, FS.isDir fs3 p = FS.isDir fs2 p := by
    intro p
    unfold FS.isDir
    rw [hdirs3, hdirs2]
  have hdird3 : fs3.isDir d = false := by rw [hdeq]; exact hdird
  have hroot3 : fs3.isDirOrRoot d.dropLast = true := by
    unfold FS.isDirOrRoot at hroot ⊢
    rw [hdeq]
    exact hroot
  have hset3 : setAssoc fs3.files d content = fs3.files := by
    rw [hfiles3, setAssoc_idem]
  have hcopy3 : copy_resume fs3 target env.first_name env.last_name = some fs3 := by
    unfold copy_resume
    apply copy2_some_of hsrc3
    rw [hdeq, ← hd]
    rw [copyTo_some_of hdird3 hroot3, hset3]
  -- assemble the second run
  rw [hmain]
  show main fs3 envFile gitOut dateStr userInput = ⟨0, fs3⟩
  unfold main
  rw [hload]
  simp only [hcheck3, hbase3, Bool.not_true, if_false, Bool.false_eq_true, not_false_iff,
    ite_false, ite_true]
  rw [hcreate3]
  simp [hcopy3]

/-- Witness for C5 at the concrete successful run. -/
theorem c5_idempotent_witness :
    (main wFS (some wLines) wGit wDate []).exitCode = 0
    ∧ main ((main wFS (some wLines) wGit wDate []).fs) (some wLines) wGit wDate []
      = main wFS (some wLines) wGit wDate [] :=
  ⟨by decide, c5_idempotent wFS (some wLines) wGit wDate [] (by decide)⟩

/-- C6: when the git branch query fails (non-zero exit or command not
found), the run does not fail: the literal fallback label "unknown" is
substituted for the branch in the default directory name, and the whole
run proceeds exactly as if the branch had been the literal "unknown". -/
theorem c6_git_fallback :
    get_git_branch none = "unknown".toList
    ∧ (∀ d, get_default_directory_name none d = "unknown".toList ++ Char.ofNat 32 :: d)
    ∧ (∀ fs envFile d u,
        main fs envFile none d u = main fs envFile (some ("unknown".toList)) d u) := by
  refine ⟨rfl, fun d => rfl, ?_⟩
  intro fs envFile d u
  have hgb : get_git_branch (some ("unknown".toList)) = get_git_branch none := by decide
  have hch : chosenDirName none d u = chosenDirName (some ("unknown".toList)) d u := by
    unfold chosenDirName get_default_directory_name
    rw [hgb]
  unfold main
  rw [hch]

/-- C8: every run exits with code 0 or code 1, and it exits with 0
exactly when every step succeeds (source artifact present, configuration
loaded, base directory present, directory created, copy done); any fatal
condition yields exit code 1. -/
theorem c8_exit_codes (fs : FS) (envFile : Option (List Str)) (gitOut : Option Str)
    (dateStr userInput : Str) :
    ((main fs envFile gitOut dateStr userInput).exitCode = 0
      ∨ (main fs envFile gitOut dateStr userInput).exitCode = 1)
    ∧ ((main fs envFile gitOut dateStr userInput).exitCode = 0
      ↔ runSucceeds fs envFile gitOut dateStr userInput = true) := by
  cases hc : check_resume_exists fs with
  | false => simp [main, runSucceeds, hc]
  | true =>
    cases hl : load_environment envFile with
    | none => simp [main, runSucceeds, hc, hl]
    | some env =>
      cases hb : fs.pathExists (splitPath env.base_dir) with
      | false => simp [main, runSucceeds, hc, hl, hb]
      | true =>
        cases hcr : create_directory fs (splitPath env.base_dir)
            (chosenDirName gitOut dateStr userInput) with
        | none => simp [main, runSucceeds, hc, hl, hb, hcr]
        | some tfs =>
          cases hcp : copy_resume tfs.2 tfs.1 env.first_name env.last_name with
          | none => simp [main, runSucceeds, hc, hl, hb, hcr, hcp]
          | some fs3 => simp [main, runSucceeds, hc, hl, hb, hcr, hcp]

/-! ### Whitespace stripping lemmas -/

theorem dropWhile_cons_false {p : Char → Bool} {l t : Str} {c : Char}
    (h : List.dropWhile p l = c :: t) : p c = false := by
  induction l with
  | nil => simp [List.dropWhile] at h
  | cons a l ih =>
    rw [List.dropWhile_cons] at h
    by_cases hp : p a = true
    · rw [if_pos hp] at h
      exact ih h
    · rw [if_neg hp] at h
      injection h with h1 h2
      rw [← h1]
      cases hpa : p a with
      | false => rfl
      | true => exact absurd hpa hp

theorem dropWhile_append_single {p : Char → Bool} {c : Char} (l : Str)
    (hc : p c = false) :
    List.dropWhile p (l ++ [c]) = List.dropWhile p l ++ [c] := by
  induction l with
  | nil => simp [List.dropWhile, hc]
  | cons a l ih =>
    rw [List.cons_append, List.dropWhile_cons, List.dropWhile_cons]
    by_cases hp : p a = true
    · rw [if_pos hp, if_pos hp, ih]
    · rw [if_neg hp, if_neg hp, List.cons_append]

theorem stripWs_cons_not_space {c : Char} {l : Str} (hc : isPySpace c = false) :
    stripWs (c :: l)
      = c :: (List.dropWhile isPySpace l.reverse).reverse := by
  unfold stripWs pyStrip
  rw [List.dropWhile_cons, if_neg (by simp [hc])]
  rw [List.reverse_cons, dropWhile_append_single _ hc, List.reverse_append]
  simp

theorem stripWs_eq_nil_of_all {u : Str} (h : u.all isPySpace = true) :
    stripWs u = [] := by
  unfold stripWs pyStrip
  have hd : List.dropWhile isPySpace u = [] := by
    rw [List.dropWhile_eq_nil_iff]
    intro x hx
    exact List.all_eq_true.mp h x hx
  rw [hd]
  rfl

/-- C10: input consisting only of whitespace characters is treated as
blank: the chosen directory name is the default "<branch> <mm-dd-yy>" and
the whole run behaves as for empty input; conversely, whenever the
stripped input is non-empty it is used, and it is never an all-whitespace
name, because the input is stripped before the emptiness check. -/
theorem c10_whitespace_input :
    (∀ u, u.all isPySpace = true → stripWs u = [])
    ∧ (∀ g d u, u.all isPySpace = true →
        chosenDirName g d u = get_default_directory_name g d)
    ∧ (∀ fs envFile g d u, u.all isPySpace = true →
        main fs envFile g d u = main fs envFile g d [])
    ∧ (∀ g d u, stripWs u ≠ [] → (chosenDirName g d u).all isPySpace = false) := by
  have hch : ∀ g d u, u.all isPySpace = true →
      chosenDirName g d u = get_default_directory_name g d := by
    intro g d u hu
    unfold chosenDirName
    rw [if_pos (stripWs_eq_nil_of_all hu)]
  refine ⟨fun u hu => stripWs_eq_nil_of_all hu, hch, ?_, ?_⟩
  · intro fs envFile g d u hu
    have h2 : chosenDirName g d u = chosenDirName g d [] := by
      rw [hch g d u hu]
      rfl
    unfold main
    rw [h2]
  · intro g d u hne
    unfold chosenDirName
    rw [if_neg hne]
    cases hB : List.dropWhile isPySpace ((List.dropWhile isPySpace u).reverse) with
    | nil =>
      exfalso
      apply hne
      unfold stripWs pyStrip
      rw [hB]
      rfl
    | cons c t =>
      have hc : isPySpace c = false := dropWhile_cons_false hB
      have hcm : c ∈ stripWs u := by
        unfold stripWs pyStrip
        rw [hB]
        exact List.mem_reverse.mpr (List.mem_cons_self c t)
      cases hall : (stripWs u).all isPySpace with
      | false => rfl
      | true =>
        have := List.all_eq_true.mp hall c hcm
        rw [hc] at this
        exact absurd this (by simp)

/-- Witness for C10 at concrete whitespace-only and non-blank inputs. -/
theorem c10_whitespace_input_witness :
    stripWs (" ".toList) = []
    ∧ chosenDirName wGit wDate (" ".toList) = get_default_directory_name wGit wDate
    ∧ main wFS (some wLines) wGit wDate (" ".toList) = main wFS (some wLines) wGit wDate []
    ∧ (chosenDirName wGit wDate ("Foo".toList)).all isPySpace = false :=
  ⟨c10_whitespace_input.1 (" ".toList) (by decide),
    c10_whitespace_input.2.1 wGit wDate (" ".toList) (by decide),
    c10_whitespace_input.2.2.1 wFS (some wLines) wGit wDate (" ".toList) (by decide),
    c10_whitespace_input.2.2.2 wGit wDate ("Foo".toList) (by decide)⟩

/-! ### Configuration line parsing lemmas -/

theorem splitAtFirstEq_append {k v : Str} (hk : ¬ '=' ∈ k) :
    splitAtFirstEq (k ++ '=' :: v) = some (k, v) := by
  induction k with
  | nil => simp [splitAtFirstEq]
  | cons c k ih =>
    have hc : ¬ (c = '=') := by
      intro hh
      exact hk (by rw [hh]; exact List.mem_cons_self _ _)
    have hk2 : ¬ '=' ∈ k := fun hh => hk (List.mem_cons_of_mem c hh)
    rw [List.cons_append]
    unfold splitAtFirstEq
    rw [if_neg hc, ih hk2]

theorem loadConfig_append_some {lines : List Str} {line k v : Str}
    (h : parseEnvLine line = some (k, v)) :
    loadConfig (lines ++ [line]) = setAssoc (loadConfig lines) k v := by
  unfold loadConfig
  rw [List.foldl_append]
  simp [h]

theorem loadConfig_append_none {lines : List Str} {line : Str}
    (h : parseEnvLine line = none) :
    loadConfig (lines ++ [line]) = loadConfig lines := by
  unfold loadConfig
  rw [List.foldl_append]
  simp [h]

/-- C7: the configuration loader works on newline-delimited KEY=value
pairs: a line starting with a hash is ignored as a comment; a line whose
stripped form is KEY=value is split at the first equality sign only, the
key is stripped, and surrounding whitespace then single or double quotes
are stripped from the value; parsed pairs enter the returned mapping
(later lines overriding earlier ones) and ignored lines leave it
unchanged. -/
theorem c7_config_parsing :
    (∀ rest, parseEnvLine ('#' :: rest) = none)
    ∧ (∀ line k v, stripWs line = k ++ '=' :: v → ¬ '=' ∈ k →
        ¬ (k ++ '=' :: v).head? = some '#' →
        parseEnvLine line = some (stripWs k, pyStrip isQuote (stripWs v)))
    ∧ (∀ lines line k v, parseEnvLine line = some (k, v) →
        lookupA (loadConfig (lines ++ [line])) k = some v)
    ∧ (∀ lines line, parseEnvLine line = none →
        loadConfig (lines ++ [line]) = loadConfig lines) := by
  refine ⟨?_, ?_, ?_, fun lines line h => loadConfig_append_none h⟩
  · intro rest
    simp only [parseEnvLine]
    rw [stripWs_cons_not_space (by decide)]
    simp
  · intro line k v hsplit hmem hhead
    simp only [parseEnvLine]
    rw [hsplit]
    rw [if_neg (by simp), if_neg hhead, splitAtFirstEq_append hmem]
  · intro lines line k v h
    rw [loadConfig_append_some h, lookupA_setAssoc, if_pos rfl]

/-- Witness for C7 at concrete configuration lines. -/
theorem c7_config_parsing_witness :
    parseEnvLine ('#' :: "comment".toList) = none
    ∧ parseEnvLine (" KEY = \"val\" ".toList)
      = some (stripWs ("KEY ".toList), pyStrip isQuote (stripWs (" \"val\"".toList)))
    ∧ lookupA (loadConfig (["A=1".toList] ++ ["B=2".toList])) ("B".toList)
      = some ("2".toList)
    ∧ loadConfig (["A=1".toList] ++ ["#c".toList]) = loadConfig ["A=1".toList] :=
  ⟨c7_config_parsing.1 ("comment".toList),
    c7_config_parsing.2.1 (" KEY = \"val\" ".toList) ("KEY ".toList) (" \"val\"".toList)
      (by decide) (by decide) (by decide),
    c7_config_parsing.2.2.1 ["A=1".toList] ("B=2".toList) ("B".toList) ("2".toList)
      (by decide),
    c7_config_parsing.2.2.2 ["A=1".toList] ("#c".toList) (by decide)⟩

end ExportResume
